import Mathlib

/-!
Formal model of the shell-construction core of `solvation_analysis/solvation.py`
(functions `get_atom_group`, `get_n_shells`, `get_closest_n_mol`,
`get_radial_shell`).

Modelling conventions (shallow embedding):
* An MDAnalysis `Universe` for one frame is a list of atoms (index order),
  each carrying its integer `index`, its residue id `resid` (the molecule id),
  its 3D position and its mass, together with orthorhombic box dimensions.
  Coordinates and masses are rationals.
* All distances are represented by their SQUARES (the periodic minimum-image
  squared distance).  Since `Real.sqrt` is strictly monotone on nonnegative
  numbers, every comparison, ordering and cutoff test in the source is
  faithfully preserved: `dist <= radius` becomes
  `0 <= radius and distSq <= radius ^ 2`, and sorting by distance is sorting
  by squared distance.
* `np.argsort` over the per-atom distances is modelled as a stable sort
  (`List.insertionSort` with a `<=` comparison); numpy's tie order among equal
  keys is what the model fixes by stability.
* The unbounded Python recursion in `get_closest_n_mol` is modelled with an
  explicit fuel parameter; the value `none` means the recursion has not
  returned after `fuel` iterations (each iteration grows the radius by 1,
  exactly as `get_closest_n_mol(u, central_species, n_mol, radius + 1)` does).
* The only exception the source can raise in these functions is the
  `assert isinstance(selection, ...)` in `get_atom_group`; it is modelled by
  the error value `SolvationError.invalidReferenceType`.
-/

namespace Solvation

attribute [local semireducible] Rat.add Rat.mul Rat.inv Rat.sub

/-- One atom of a frame: its stable integer index, the id of the residue
(molecule) it belongs to, its position and its mass. -/
structure Atom where
  index : Nat
  resid : Nat
  pos : ℚ × ℚ × ℚ
  mass : ℚ
deriving DecidableEq, Repr

/-- One frame of a simulated system: the atoms in index order plus the
orthorhombic box dimensions used for periodic wrapping
(`u.dimensions` in MDAnalysis). -/
structure Universe where
  atoms : List Atom
  box : ℚ × ℚ × ℚ
deriving DecidableEq, Repr

/-- The polymorphic `selection` argument of `get_atom_group`:
an `Atom`, an `AtomGroup` (a list of atoms), a `Residue` or `ResidueGroup`
(modelled by the atom list that its `.atoms` attribute yields in its home
universe), or a value of any other Python type (`invalid`). -/
inductive Selection where
  | atom (a : Atom)
  | atomGroup (g : List Atom)
  | residue (atoms : List Atom)
  | residueGroup (atoms : List Atom)
  | invalid
deriving DecidableEq, Repr

/-- The one exception the modelled code can raise: the `AssertionError` from
the `assert isinstance(selection, ...)` guard of `get_atom_group`
("central_species must be one of the preceding types"); the spec calls this
error kind `InvalidReferenceType`. -/
inductive SolvationError where
  | invalidReferenceType
deriving DecidableEq, Repr

/-- Minimum-image component: the representative of `d` modulo the box length
`L` that is closest to 0 (magnitude at most `L / 2` when `L > 0`).  This is
the per-component periodic wrap used by MDAnalysis distance routines for an
orthorhombic box. -/
def wrap (L d : ℚ) : ℚ := d - L * round (d / L)

/-- Periodic minimum-image SQUARED distance between two points, with the
given box dimensions (`distances.distance_array(..., box=u.dimensions)` and
the `point` selection both use this convention). -/
def distSq3 (box : ℚ × ℚ × ℚ) (p q : ℚ × ℚ × ℚ) : ℚ :=
  wrap box.1 (p.1 - q.1) ^ 2 + wrap box.2.1 (p.2.1 - q.2.1) ^ 2 +
    wrap box.2.2 (p.2.2 - q.2.2) ^ 2

/-- `AtomGroup.center_of_mass()`: the mass-weighted mean position of a group
of atoms. -/
def centerOfMass (g : List Atom) : ℚ × ℚ × ℚ :=
  let m := (g.map (fun a => a.mass)).sum
  (((g.map (fun a => a.mass * a.pos.1)).sum) / m,
   ((g.map (fun a => a.mass * a.pos.2.1)).sum) / m,
   ((g.map (fun a => a.mass * a.pos.2.2)).sum) / m)

/-- Whether an atom at squared distance `dsq` from the query point lies
within the cutoff `radius` of a `point x y z radius` selection:
`dist <= radius`, expressed on squared distances. -/
def withinPoint (radius dsq : ℚ) : Bool :=
  decide (0 ≤ radius) && decide (dsq ≤ radius ^ 2)

/-- `u.select_atoms(f'point {str_coords} {radius}')` around the center of
mass of the (already resolved) central group `gp`: the atoms of `u` whose
periodic distance to that center is at most `radius`, in index order. -/
def shellQuery (u : Universe) (gp : List Atom) (radius : ℚ) : List Atom :=
  u.atoms.filter (fun a => withinPoint radius (distSq3 u.box (centerOfMass gp) a.pos))

/-- `get_atom_group(u, selection)` (solvation.py lines 28-52): asserts the
type of `selection`, sends a Residue/ResidueGroup to its `.atoms`, re-selects
a single Atom in `u` by `index {selection.index}`, and passes an AtomGroup
through unchanged. -/
def get_atom_group (u : Universe) (selection : Selection) :
    Except SolvationError (List Atom) :=
  match selection with
  | Selection.invalid => Except.error SolvationError.invalidReferenceType
  | Selection.residue atoms => Except.ok atoms
  | Selection.residueGroup atoms => Except.ok atoms
  | Selection.atom a => Except.ok (u.atoms.filter (fun x => decide (x.index = a.index)))
  | Selection.atomGroup g => Except.ok g

/-- `get_n_shells(u, central_species, n_shell, radius, ignore_atoms)`
(solvation.py lines 56-84): after the `n_shell > 3` warning (a no-op here),
the resolution of `central_species` (which can raise) and the defaulting of
`ignore_atoms`, the function body ends without a `return` statement, so
Python returns `None` — modelled as `Except.ok none`. -/
def get_n_shells (u : Universe) (central_species : Selection) (n_shell : Nat)
    (radius : ℚ) (ignore_atoms : Option (List Atom)) :
    Except SolvationError (Option (List (List Atom))) := do
  let _central ← get_atom_group u central_species
  pure none

/-- Comparison of two atoms by their (squared) periodic distance to the
point `c`: the sort key of `np.argsort(radii)` in `get_closest_n_mol`. -/
def distLE (box c : ℚ × ℚ × ℚ) (a b : Atom) : Prop :=
  distSq3 box c a.pos ≤ distSq3 box c b.pos

instance (box c : ℚ × ℚ × ℚ) : DecidableRel (distLE box c) :=
  fun a b => inferInstanceAs (Decidable (distSq3 box c a.pos ≤ distSq3 box c b.pos))

instance (box c : ℚ × ℚ × ℚ) : IsTotal Atom (distLE box c) :=
  ⟨fun a b => le_total (distSq3 box c a.pos) (distSq3 box c b.pos)⟩

instance (box c : ℚ × ℚ × ℚ) : IsTrans Atom (distLE box c) :=
  ⟨fun _ _ _ hab hbc => le_trans hab hbc⟩

/-- Keep, in order, the first atom of each residue not yet in `seen`:
this is the effect of `np.unique(ordered_resids, return_index=True)[1]`
followed by `np.sort` — the first occurrence of every resid in the
distance-ordered atom array (`seen` starts empty). -/
def firstByResid : List Atom → List Nat → List Atom
  | [], _ => []
  | a :: rest, seen =>
    if a.resid ∈ seen then firstByResid rest seen
    else a :: firstByResid rest (a.resid :: seen)

/-- The in-range atoms ordered by distance to the central center of mass:
`ordering = np.argsort(radii)` applied to `partial_shell` (line 115),
modelled as a stable sort on the (squared) distance key. -/
def sortedShell (u : Universe) (gp : List Atom) (radius : ℚ) : List Atom :=
  List.insertionSort (distLE u.box (centerOfMass gp)) (shellQuery u gp radius)

/-- The atoms standing at the first occurrence of each resid in the
distance-ordered array, sliced to the first `n_mol + 1` of them:
`closest_n_resix = np.sort(np.unique(ordered_resids, return_index=True)[1])[0:n_mol + 1]`
(line 117), as positions into the ordered array. -/
def rankedFirsts (u : Universe) (gp : List Atom) (n_mol : Nat) (radius : ℚ) :
    List Atom :=
  (firstByResid (sortedShell u gp radius) []).take (n_mol + 1)

/-- Lines 114-120 of solvation.py, once enough distinct residues are in
range: sort the in-range atoms by distance to the central center of mass,
keep the first occurrence of each resid and slice the first `n_mol + 1` of
them, and return `u.select_atoms(f'resid {str_resids}')` together with those
resids (`ordered_resids[closest_n_resix]`) and their (squared) distances
(`radii[ordering][closest_n_resix]`) in ranked order. -/
def buildClosest (u : Universe) (gp : List Atom) (n_mol : Nat) (radius : ℚ) :
    List Atom × List Nat × List ℚ :=
  let firsts := rankedFirsts u gp n_mol radius
  let resids := firsts.map (fun a => a.resid)
  let dists := firsts.map (fun a => distSq3 u.box (centerOfMass gp) a.pos)
  (u.atoms.filter (fun x => decide (x.resid ∈ resids)), resids, dists)

/-- The recursion of `get_closest_n_mol` on the already-resolved central
group (lines 110-120): if fewer than `n_mol + 1` distinct resids are within
`radius` of the central center of mass, retry with `radius + 1`; otherwise
build the result.  `fuel` bounds the number of iterations observed; `none`
means the Python recursion is still running after `fuel` iterations. -/
def closestLoop (u : Universe) (gp : List Atom) (n_mol : Nat) :
    Nat → ℚ → Option (List Atom × List Nat × List ℚ)
  | 0, _ => none
  | fuel + 1, radius =>
    if ((shellQuery u gp radius).map (fun a => a.resid)).dedup.length < n_mol + 1 then
      closestLoop u gp n_mol fuel (radius + 1)
    else
      some (buildClosest u gp n_mol radius)

/-- `get_closest_n_mol(u, central_species, n_mol, radius)` (solvation.py
lines 87-120): resolve the central species (which can raise), then run the
radius-expansion recursion.  The recursive call passes the already-resolved
group, on which `get_atom_group` is the identity. -/
def get_closest_n_mol (fuel : Nat) (u : Universe) (central_species : Selection)
    (n_mol : Nat) (radius : ℚ) :
    Except SolvationError (Option (List Atom × List Nat × List ℚ)) := do
  let gp ← get_atom_group u central_species
  pure (closestLoop u gp n_mol fuel radius)

/-- The number of distinct residues (molecules) in the whole universe. -/
def distinctResids (u : Universe) : Nat :=
  ((u.atoms.map (fun a => a.resid)).dedup).length

/-- A radius large enough that the periodic minimum-image distance of any
two points is below it (for a positive box): half the sum of the box
dimensions. -/
def rStar (box : ℚ × ℚ × ℚ) : ℚ := box.1 / 2 + box.2.1 / 2 + box.2.2 / 2

/-- The tie-break order the spec claims for the ranked
`(molecule_id, distance)` pairs: whenever two entries have equal distance,
the earlier one has the smaller molecule id. -/
def tiesAscend (resids : List Nat) (dists : List ℚ) : Prop :=
  List.Pairwise (fun p q => p.2 = q.2 → p.1 ≤ q.1) (resids.zip dists)

/-- `get_radial_shell(u, central_species, radius)` (solvation.py lines
123-146): resolve the central species, take its center of mass, select all
atoms within `radius` of it (`point` selection), and return
`partial_shell.residues.atoms` — every atom of `u` whose residue was touched
by the selection. -/
def get_radial_shell (u : Universe) (central_species : Selection) (radius : ℚ) :
    Except SolvationError (List Atom) := do
  let gp ← get_atom_group u central_species
  let touched := (shellQuery u gp radius).map (fun a => a.resid)
  pure (u.atoms.filter (fun x => decide (x.resid ∈ touched)))

/-! Concrete single-frame universes used to witness and refute claims. -/

/-- Central atom of `uA`: molecule 1, at the origin. -/
def aA0 : Atom := ⟨0, 1, (0, 0, 0), 1⟩

/-- Second atom of `uA`: molecule 2, at distance 1 from the origin. -/
def aA1 : Atom := ⟨1, 2, (1, 0, 0), 1⟩

/-- Third atom of `uA`: molecule 3, at distance 2 from the origin. -/
def aA2 : Atom := ⟨2, 3, (2, 0, 0), 1⟩

/-- A frame with three single-atom molecules in a 10×10×10 box. -/
def uA : Universe := ⟨[aA0, aA1, aA2], (10, 10, 10)⟩

/-- The single atom of `uS`: molecule 1 at the origin. -/
def aS0 : Atom := ⟨0, 1, (0, 0, 0), 1⟩

/-- A frame with a single one-atom molecule in a 10×10×10 box. -/
def uS : Universe := ⟨[aS0], (10, 10, 10)⟩

/-- Central atom of `uB`: molecule 1, at the origin. -/
def aB0 : Atom := ⟨0, 1, (0, 0, 0), 1⟩

/-- Second atom of `uB`: molecule 3 (the larger resid first in index order),
at distance 1 from the origin. -/
def aB1 : Atom := ⟨1, 3, (1, 0, 0), 1⟩

/-- Third atom of `uB`: molecule 2, also at distance 1 from the origin —
tied with molecule 3. -/
def aB2 : Atom := ⟨2, 2, (0, 1, 0), 1⟩

/-- A frame with two molecules tied at the same minimum distance from the
central one, the larger resid earlier in index order. -/
def uB : Universe := ⟨[aB0, aB1, aB2], (10, 10, 10)⟩

/-- An atom that does not belong to `uA`: no atom of `uA` has index 7. -/
def aForeign : Atom := ⟨7, 9, (5, 5, 5), 1⟩

/-! ## Helper lemmas -/

/-- `select_atoms('index i')` on a universe with distinct indices returns
exactly the member atom with that index. -/
theorem filter_index_single (a : Atom) :
    ∀ l : List Atom, (l.map (fun x => x.index)).Nodup → a ∈ l →
      l.filter (fun x => decide (x.index = a.index)) = [a] := by
  intro l
  induction l with
  | nil => intro _ ha; cases ha
  | cons b rest ih =>
    intro hnd ha
    rw [List.map_cons, List.nodup_cons] at hnd
    rcases List.mem_cons.mp ha with hb | ha2
    · subst hb
      rw [List.filter_cons_of_pos (by simp)]
      have hrest : rest.filter (fun x => decide (x.index = a.index)) = [] := by
        apply List.filter_eq_nil_iff.mpr
        intro x hx
        simp only [decide_eq_true_eq]
        intro hxi
        exact hnd.1 (hxi ▸ List.mem_map_of_mem (fun y => y.index) hx)
      rw [hrest]
    · have hbne : b.index ≠ a.index := by
        intro he
        exact hnd.1 (he ▸ List.mem_map_of_mem (fun y => y.index) ha2)
      rw [List.filter_cons_of_neg (by simpa using hbne)]
      exact ih hnd.2 ha2

/-- A negative radius selects no atoms. -/
theorem shellQuery_neg (u : Universe) (gp : List Atom) (r : ℚ) (hr : r < 0) :
    shellQuery u gp r = [] := by
  apply List.filter_eq_nil_iff.mpr
  intro a _
  simp [withinPoint, not_le.mpr hr]

/-! ## Claims about the species resolver (`get_atom_group`) -/

/-- Claim C9 (confirmed): `get_atom_group` resolves an `Atom` reference
purely by its integer index against `u`: it returns, without error, exactly
the atoms of `u` carrying index `a.index`, whatever universe `a` came from. -/
theorem claim_c9 (u : Universe) (a : Atom) :
    ∃ g, get_atom_group u (Selection.atom a) = Except.ok g ∧
      ∀ x, x ∈ g ↔ x ∈ u.atoms ∧ x.index = a.index := by
  refine ⟨_, rfl, ?_⟩
  intro x
  simp [List.mem_filter]

/-- Claim C4, counterexample: resolving an `Atom` that does not belong to
the frame does NOT fail with `ReferenceNotInFrame` — no atom of `uA` has
index 7, yet the call succeeds and returns the empty group. -/
theorem claim_c4_counterexample :
    get_atom_group uA (Selection.atom aForeign) = Except.ok [] := rfl

/-- Claim C4, amended: an `Atom` reference is resolved purely by index and
never raises: if no atom of the frame carries that index the result is the
empty group, and (for a frame with distinct indices) an `Atom` that does
belong to the frame resolves to the one-element group containing exactly
that particle. -/
theorem claim_c4_amended (u : Universe) (a : Atom) :
    ((∀ b ∈ u.atoms, b.index ≠ a.index) →
      get_atom_group u (Selection.atom a) = Except.ok []) ∧
    ((u.atoms.map (fun x => x.index)).Nodup → a ∈ u.atoms →
      get_atom_group u (Selection.atom a) = Except.ok [a]) := by
  constructor
  · intro hnone
    show Except.ok _ = _
    congr 1
    apply List.filter_eq_nil_iff.mpr
    intro x hx
    simpa using hnone x hx
  · intro hnd ha
    show Except.ok _ = _
    congr 1
    exact filter_index_single a u.atoms hnd ha

/-- Claim C4, witness for the amended claim at concrete inputs. -/
theorem claim_c4_amended_witness :
    get_atom_group uS (Selection.atom aForeign) = Except.ok [] ∧
    get_atom_group uA (Selection.atom aA1) = Except.ok [aA1] :=
  ⟨(claim_c4_amended uS aForeign).1 (by decide),
   (claim_c4_amended uA aA1).2 (by decide) (by decide)⟩

/-- Claim C7 (confirmed): `get_atom_group` is idempotent — re-resolving the
group returned for any valid reference gives back the same group — and a
reference of any other type fails (the `assert isinstance` guard, the
spec's `InvalidReferenceType`). -/
theorem claim_c7 (u : Universe) (s : Selection) (g : List Atom)
    (h : get_atom_group u s = Except.ok g) :
    get_atom_group u (Selection.atomGroup g) = Except.ok g ∧
    get_atom_group u Selection.invalid =
      Except.error SolvationError.invalidReferenceType :=
  ⟨rfl, rfl⟩

/-- Claim C7, witness at a concrete input. -/
theorem claim_c7_witness :
    get_atom_group uA (Selection.atomGroup [aA1]) = Except.ok [aA1] ∧
    get_atom_group uA Selection.invalid =
      Except.error SolvationError.invalidReferenceType :=
  claim_c7 uA (Selection.atom aA1) [aA1] rfl

/-! ## Claim about the shell builder (`get_n_shells`) -/

/-- Claim C2 (code bug): `get_n_shells` falls off the end of its body — it
returns `None` for every input, never a list of shells, contradicting its
own docstring ("A list containing the nth shell at the nth index ...
would return: [central_species, first_shell, second_shell]").  Evaluated
here at `n_shell = 0` on a valid central species. -/
theorem claim_c2_eval :
    get_n_shells uS (Selection.atom aS0) 0 3 none = Except.ok none ∧
    ∀ shells : List (List Atom),
      get_n_shells uS (Selection.atom aS0) 0 3 none ≠ Except.ok (some shells) := by
  constructor
  · rfl
  · intro shells h
    cases h

/-! ## Claims about `get_radial_shell` -/

/-- Claim C5 (confirmed): for a valid central species and a positive radius,
`get_radial_shell` succeeds and its result is exactly the union of ALL atoms
of every molecule having at least one atom within the radius of the central
group's center of mass; in particular every molecule appearing in the result
appears with 100% of its particles. -/
theorem claim_c5 (u : Universe) (c : Selection) (gp : List Atom) (radius : ℚ)
    (h : get_atom_group u c = Except.ok gp) (hr : 0 < radius) :
    ∃ res, get_radial_shell u c radius = Except.ok res ∧
      (∀ x, x ∈ res ↔ x ∈ u.atoms ∧ ∃ y ∈ u.atoms, y.resid = x.resid ∧
        withinPoint radius (distSq3 u.box (centerOfMass gp) y.pos) = true) ∧
      (∀ x ∈ res, ∀ z ∈ u.atoms, z.resid = x.resid → z ∈ res) := by
  refine ⟨(u.atoms.filter (fun x =>
    decide (x.resid ∈ (shellQuery u gp radius).map (fun a => a.resid)))), ?_, ?_, ?_⟩
  · unfold get_radial_shell
    rw [h]
    rfl
  · intro x
    simp only [List.mem_filter, decide_eq_true_eq, List.mem_map, shellQuery,
      List.mem_filter]
    constructor
    · rintro ⟨hx, y, ⟨hy, hw⟩, hyr⟩
      exact ⟨hx, y, hy, hyr, hw⟩
    · rintro ⟨hx, y, hy, hyr, hw⟩
      exact ⟨hx, y, ⟨hy, hw⟩, hyr⟩
  · intro x hx z hz hzr
    rw [List.mem_filter] at hx ⊢
    refine ⟨hz, ?_⟩
    rw [decide_eq_true_eq] at hx ⊢
    exact hzr ▸ hx.2

/-- Claim C5, witness: in `uA` with radius 3/2 the molecules at distance 0
and 1 are returned whole. -/
theorem claim_c5_witness :
    ∃ res, get_radial_shell uA (Selection.atom aA0) (3 / 2) = Except.ok res ∧
      (∀ x, x ∈ res ↔ x ∈ uA.atoms ∧ ∃ y ∈ uA.atoms, y.resid = x.resid ∧
        withinPoint (3 / 2) (distSq3 uA.box (centerOfMass [aA0]) y.pos) = true) ∧
      (∀ x ∈ res, ∀ z ∈ uA.atoms, z.resid = x.resid → z ∈ res) :=
  claim_c5 uA (Selection.atom aA0) [aA0] (3 / 2) rfl (by norm_num)

/-- Claim C8, counterexample: a negative radius does NOT fail with
`InvalidRadius` — the call succeeds and returns an empty group. -/
theorem claim_c8_counterexample :
    get_radial_shell uA (Selection.atom aA0) (-1) = Except.ok [] := rfl

/-- Claim C8, amended: `get_radial_shell` performs no radius validation and
never raises for any radius; for a radius below zero the result is simply
empty, and an empty result is a valid non-error outcome. -/
theorem claim_c8_amended (u : Universe) (c : Selection) (gp : List Atom) (radius : ℚ)
    (h : get_atom_group u c = Except.ok gp) :
    ∃ res, get_radial_shell u c radius = Except.ok res ∧
      (radius < 0 → res = []) := by
  refine ⟨(u.atoms.filter (fun x =>
    decide (x.resid ∈ (shellQuery u gp radius).map (fun a => a.resid)))), ?_, ?_⟩
  · unfold get_radial_shell
    rw [h]
    rfl
  · intro hneg
    rw [shellQuery_neg u gp radius hneg]
    apply List.filter_eq_nil_iff.mpr
    intro x _
    simp

/-- Claim C8, witness for the amended claim at a concrete negative radius. -/
theorem claim_c8_amended_witness :
    ∃ res, get_radial_shell uB (Selection.atom aB0) (-2) = Except.ok res ∧
      ((-2 : ℚ) < 0 → res = []) :=
  claim_c8_amended uB (Selection.atom aB0) [aB0] (-2) rfl

/-! ## Lemmas about the radius-expansion loop of `get_closest_n_mol` -/

/-- One failed guard check makes the loop retry at `radius + 1` with one
unit of fuel spent. -/
theorem closestLoop_step (u : Universe) (gp : List Atom) (n fuel : Nat) (r : ℚ)
    (h : ((shellQuery u gp r).map (fun a => a.resid)).dedup.length < n + 1) :
    closestLoop u gp n (fuel + 1) r = closestLoop u gp n fuel (r + 1) := by
  simp [closestLoop, h]

/-- As soon as enough distinct residues are in range the loop stops and
builds the result. -/
theorem closestLoop_stop (u : Universe) (gp : List Atom) (n fuel : Nat) (r : ℚ)
    (h : n + 1 ≤ ((shellQuery u gp r).map (fun a => a.resid)).dedup.length) :
    closestLoop u gp n (fuel + 1) r = some (buildClosest u gp n r) := by
  simp [closestLoop, Nat.not_lt.mpr h]

/-- Inversion: a successful loop result is `buildClosest` at some radius
whose range query saw at least `n + 1` distinct residues. -/
theorem closestLoop_eq_some (u : Universe) (gp : List Atom) (n : Nat) :
    ∀ (fuel : Nat) (r : ℚ) (res : List Atom × List Nat × List ℚ),
      closestLoop u gp n fuel r = some res →
      ∃ r2, n + 1 ≤ ((shellQuery u gp r2).map (fun a => a.resid)).dedup.length ∧
        res = buildClosest u gp n r2 := by
  intro fuel
  induction fuel with
  | zero => intro r res h; cases h
  | succ k ih =>
    intro r res h
    by_cases hg : ((shellQuery u gp r).map (fun a => a.resid)).dedup.length < n + 1
    · rw [closestLoop_step u gp n k r hg] at h
      exact ih (r + 1) res h
    · rw [closestLoop_stop u gp n k r (Nat.not_lt.mp hg)] at h
      exact ⟨r, Nat.not_lt.mp hg, (Option.some_inj.mp h).symm⟩

/-- The range query can never see more distinct residues than the whole
universe has. -/
theorem shellQuery_count_le (u : Universe) (gp : List Atom) (r : ℚ) :
    ((shellQuery u gp r).map (fun a => a.resid)).dedup.length ≤ distinctResids u := by
  rw [distinctResids, ← List.card_toFinset, ← List.card_toFinset]
  apply Finset.card_le_card
  intro x hx
  rw [List.mem_toFinset] at hx ⊢
  exact ((List.filter_sublist u.atoms).map (fun a => a.resid)).subset hx

/-- In a universe with fewer than `n + 1` distinct molecules the guard
fails at every radius, so the loop never returns however much fuel it is
given: the Python recursion never terminates. -/
theorem sparse_loop_none (u : Universe) (gp : List Atom) (n : Nat)
    (hlt : distinctResids u < n + 1) :
    ∀ (fuel : Nat) (r : ℚ), closestLoop u gp n fuel r = none := by
  intro fuel
  induction fuel with
  | zero => intro r; rfl
  | succ k ih =>
    intro r
    rw [closestLoop_step u gp n k r
      (lt_of_le_of_lt (shellQuery_count_le u gp r) hlt)]
    exact ih (r + 1)

/-- Periodic wrap bound: for a positive box length the minimum-image
component has magnitude at most half the box length. -/
theorem abs_wrap_le (L d : ℚ) (hL : 0 < L) : |wrap L d| ≤ L / 2 := by
  have hL0 : L ≠ 0 := ne_of_gt hL
  have key : d - L * round (d / L) = L * (d / L - round (d / L)) := by
    field_simp
  rw [wrap, key, abs_mul, abs_of_pos hL]
  have h2 : |d / L - round (d / L)| ≤ 1 / 2 := abs_sub_round (d / L)
  calc L * |d / L - round (d / L)| ≤ L * (1 / 2) := by
        exact mul_le_mul_of_nonneg_left h2 (le_of_lt hL)
    _ = L / 2 := by ring

/-- For a positive box, every periodic squared distance is at most
`rStar box ^ 2`. -/
theorem distSq3_le (box : ℚ × ℚ × ℚ) (p q : ℚ × ℚ × ℚ)
    (h1 : 0 < box.1) (h2 : 0 < box.2.1) (h3 : 0 < box.2.2) :
    distSq3 box p q ≤ rStar box ^ 2 := by
  have w1 := abs_wrap_le box.1 (p.1 - q.1) h1
  have w2 := abs_wrap_le box.2.1 (p.2.1 - q.2.1) h2
  have w3 := abs_wrap_le box.2.2 (p.2.2 - q.2.2) h3
  have a1 := abs_nonneg (wrap box.1 (p.1 - q.1))
  have a2 := abs_nonneg (wrap box.2.1 (p.2.1 - q.2.1))
  have a3 := abs_nonneg (wrap box.2.2 (p.2.2 - q.2.2))
  have s1 : wrap box.1 (p.1 - q.1) ^ 2 ≤ (box.1 / 2) ^ 2 := by
    rw [← sq_abs]
    exact pow_le_pow_left a1 w1 2
  have s2 : wrap box.2.1 (p.2.1 - q.2.1) ^ 2 ≤ (box.2.1 / 2) ^ 2 := by
    rw [← sq_abs]
    exact pow_le_pow_left a2 w2 2
  have s3 : wrap box.2.2 (p.2.2 - q.2.2) ^ 2 ≤ (box.2.2 / 2) ^ 2 := by
    rw [← sq_abs]
    exact pow_le_pow_left a3 w3 2
  rw [distSq3, rStar]
  nlinarith [mul_pos h1 h2, mul_pos h2 h3, mul_pos h1 h3]

/-- `rStar` is positive for a positive box. -/
theorem rStar_pos (box : ℚ × ℚ × ℚ)
    (h1 : 0 < box.1) (h2 : 0 < box.2.1) (h3 : 0 < box.2.2) : 0 < rStar box := by
  rw [rStar]
  linarith

/-- A radius of at least `rStar` selects every atom of the universe. -/
theorem shellQuery_all (u : Universe) (gp : List Atom) (r : ℚ)
    (h1 : 0 < u.box.1) (h2 : 0 < u.box.2.1) (h3 : 0 < u.box.2.2)
    (hr : rStar u.box ≤ r) : shellQuery u gp r = u.atoms := by
  apply List.filter_eq_self.mpr
  intro a _
  have h0 : (0 : ℚ) ≤ rStar u.box := le_of_lt (rStar_pos u.box h1 h2 h3)
  have hd : distSq3 u.box (centerOfMass gp) a.pos ≤ r ^ 2 :=
    le_trans (distSq3_le u.box (centerOfMass gp) a.pos h1 h2 h3)
      (pow_le_pow_left h0 hr 2)
  simp [withinPoint, le_trans h0 hr, hd]

/-- With enough distinct molecules in a positive box, the loop returns once
the radius has grown past `rStar`: `k` retries suffice whenever
`rStar ≤ r + k`. -/
theorem closestLoop_reaches (u : Universe) (gp : List Atom) (n : Nat)
    (h1 : 0 < u.box.1) (h2 : 0 < u.box.2.1) (h3 : 0 < u.box.2.2)
    (hn : n + 1 ≤ distinctResids u) :
    ∀ (k : Nat) (r : ℚ), rStar u.box ≤ r + k →
      ∃ res, closestLoop u gp n (k + 1) r = some res := by
  intro k
  induction k with
  | zero =>
    intro r hr
    rw [Nat.cast_zero, add_zero] at hr
    have hall : shellQuery u gp r = u.atoms := shellQuery_all u gp r h1 h2 h3 hr
    have hge : n + 1 ≤ ((shellQuery u gp r).map (fun a => a.resid)).dedup.length := by
      rw [hall]
      exact hn
    exact ⟨buildClosest u gp n r, closestLoop_stop u gp n 0 r hge⟩
  | succ k ih =>
    intro r hr
    by_cases hg : ((shellQuery u gp r).map (fun a => a.resid)).dedup.length < n + 1
    · rw [closestLoop_step u gp n (k + 1) r hg]
      apply ih (r + 1)
      push_cast at hr ⊢
      linarith
    · exact ⟨buildClosest u gp n r, closestLoop_stop u gp n (k + 1) r (Nat.not_lt.mp hg)⟩

/-- For every starting radius there is a fuel budget after which the loop
has returned (positive box, enough distinct molecules). -/
theorem closestLoop_terminates (u : Universe) (gp : List Atom) (n : Nat) (r : ℚ)
    (h1 : 0 < u.box.1) (h2 : 0 < u.box.2.1) (h3 : 0 < u.box.2.2)
    (hn : n + 1 ≤ distinctResids u) :
    ∃ (fuel : Nat) (res : List Atom × List Nat × List ℚ),
      closestLoop u gp n fuel r = some res := by
  set k : Nat := (⌈rStar u.box - r⌉).toNat with hk
  have hreach : rStar u.box ≤ r + k := by
    by_cases hc : rStar u.box ≤ r
    · have : (0 : ℚ) ≤ (k : ℚ) := Nat.cast_nonneg k
      linarith
    · have hpos : 0 < rStar u.box - r := by linarith
      have hceil : (0 : ℤ) ≤ ⌈rStar u.box - r⌉ :=
        Int.ceil_nonneg (le_of_lt hpos)
      have hcast : ((k : ℤ) : ℚ) = ((⌈rStar u.box - r⌉ : ℤ) : ℚ) := by
        rw [hk]
        rw [Int.toNat_of_nonneg hceil]
      have hle : rStar u.box - r ≤ ((⌈rStar u.box - r⌉ : ℤ) : ℚ) := Int.le_ceil _
      have : rStar u.box - r ≤ (k : ℚ) := by
        rw [show ((k : ℚ) = (((k : Nat) : ℤ) : ℚ)) by push_cast; ring]
        rw [hcast]
        exact hle
      linarith
  obtain ⟨res, hres⟩ := closestLoop_reaches u gp n h1 h2 h3 hn k r hreach
  exact ⟨k + 1, res, hres⟩

/-! ## Claims about the recursion of `get_closest_n_mol` -/

/-- Claim C10 (confirmed): for a valid central species, (1) every failed
guard check retries with the radius increased by exactly 1; (2) the
recursion stops as soon as the range query covers at least `n_mol + 1`
distinct molecule ids; (3) in a positive (bounded periodic) box containing
at least `n_mol + 1` distinct molecules a sufficient radius is always
reached, so the recursion terminates; (4) with fewer than `n_mol + 1`
distinct molecules it never stops. -/
theorem claim_c10 (u : Universe) (c : Selection) (gp : List Atom) (n : Nat) (r : ℚ)
    (h : get_atom_group u c = Except.ok gp) :
    (∀ (fuel : Nat) (rr : ℚ),
      ((shellQuery u gp rr).map (fun a => a.resid)).dedup.length < n + 1 →
      closestLoop u gp n (fuel + 1) rr = closestLoop u gp n fuel (rr + 1)) ∧
    (∀ (fuel : Nat) (rr : ℚ),
      n + 1 ≤ ((shellQuery u gp rr).map (fun a => a.resid)).dedup.length →
      closestLoop u gp n (fuel + 1) rr = some (buildClosest u gp n rr)) ∧
    (0 < u.box.1 → 0 < u.box.2.1 → 0 < u.box.2.2 → n + 1 ≤ distinctResids u →
      ∃ (fuel : Nat) (res : List Atom × List Nat × List ℚ),
        get_closest_n_mol fuel u c n r = Except.ok (some res)) ∧
    (distinctResids u < n + 1 → ∀ fuel : Nat,
      get_closest_n_mol fuel u c n r = Except.ok none) := by
  refine ⟨closestLoop_step u gp n, closestLoop_stop u gp n, ?_, ?_⟩
  · intro h1 h2 h3 hn
    obtain ⟨fuel, res, hres⟩ := closestLoop_terminates u gp n r h1 h2 h3 hn
    refine ⟨fuel, res, ?_⟩
    unfold get_closest_n_mol
    rw [h]
    simp [hres]
  · intro hlt fuel
    unfold get_closest_n_mol
    rw [h]
    simp [sparse_loop_none u gp n hlt fuel r]

/-- Claim C10, witness: in `uA` (three molecules, positive box) a closest-1
query terminates; in `uS` (one molecule) the recursion is still running
after 5 iterations. -/
theorem claim_c10_witness :
    (∃ (fuel : Nat) (res : List Atom × List Nat × List ℚ),
      get_closest_n_mol fuel uA (Selection.atom aA0) 1 3 = Except.ok (some res)) ∧
    get_closest_n_mol 5 uS (Selection.atom aS0) 1 3 = Except.ok none :=
  ⟨(claim_c10 uA (Selection.atom aA0) [aA0] 1 3 rfl).2.2.1
      (by norm_num [uA]) (by norm_num [uA]) (by norm_num [uA]) (by decide),
   (claim_c10 uS (Selection.atom aS0) [aS0] 1 3 rfl).2.2.2 (by decide) 5⟩

/-- Claim C3, counterexample: with only one molecule in the universe a
closest-1 query does not fail with any error — after 20 retry iterations it
is still recursing, no `InsufficientCandidates` (or any exception) having
been raised. -/
theorem claim_c3_counterexample :
    get_closest_n_mol 20 uS (Selection.atom aS0) 1 3 = Except.ok none := rfl

/-- Claim C3, amended: the code has no `InsufficientCandidates` failure.
When the system has fewer than `n_mol + 1` distinct molecules in total,
`get_closest_n_mol` retries forever (radius + 1 each time) and never
returns a result or raises, at every recursion depth. -/
theorem claim_c3_amended (u : Universe) (c : Selection) (gp : List Atom)
    (n : Nat) (r : ℚ) (h : get_atom_group u c = Except.ok gp)
    (hlt : distinctResids u < n + 1) (fuel : Nat) :
    get_closest_n_mol fuel u c n r = Except.ok none := by
  unfold get_closest_n_mol
  rw [h]
  simp [sparse_loop_none u gp n hlt fuel r]

/-- Claim C3, witness for the amended claim: the single-molecule universe
at recursion depth 6. -/
theorem claim_c3_amended_witness :
    get_closest_n_mol 6 uS (Selection.atom aS0) 1 3 = Except.ok none :=
  claim_c3_amended uS (Selection.atom aS0) [aS0] 1 3 rfl (by decide) 6

/-! ## Lemmas about `firstByResid` (the `np.unique(..., return_index=True)`
pipeline) -/

/-- `firstByResid` keeps a subsequence of its input. -/
theorem firstByResid_sublist :
    ∀ (l : List Atom) (seen : List Nat), List.Sublist (firstByResid l seen) l := by
  intro l
  induction l with
  | nil => intro seen; exact List.Sublist.refl []
  | cons b rest ih =>
    intro seen
    by_cases hb : b.resid ∈ seen
    · simp only [firstByResid, if_pos hb]
      exact (ih seen).trans (List.sublist_cons_self b rest)
    · simp only [firstByResid, if_neg hb]
      exact (ih (b.resid :: seen)).cons₂ b

/-- Atoms kept by `firstByResid` have a resid outside `seen`. -/
theorem firstByResid_not_seen :
    ∀ (l : List Atom) (seen : List Nat) (a : Atom),
      a ∈ firstByResid l seen → a.resid ∉ seen := by
  intro l
  induction l with
  | nil => intro seen a ha; cases ha
  | cons b rest ih =>
    intro seen a ha
    by_cases hb : b.resid ∈ seen
    · rw [firstByResid, if_pos hb] at ha
      exact ih seen a ha
    · rw [firstByResid, if_neg hb] at ha
      rcases List.mem_cons.mp ha with hab | ha2
      · rw [hab]; exact hb
      · intro hseen
        exact ih (b.resid :: seen) a ha2 (List.mem_cons_of_mem _ hseen)

/-- The resids kept by `firstByResid` are pairwise distinct. -/
theorem firstByResid_nodup :
    ∀ (l : List Atom) (seen : List Nat),
      ((firstByResid l seen).map (fun a => a.resid)).Nodup := by
  intro l
  induction l with
  | nil => intro seen; simp [firstByResid]
  | cons b rest ih =>
    intro seen
    by_cases hb : b.resid ∈ seen
    · rw [firstByResid, if_pos hb]
      exact ih seen
    · rw [firstByResid, if_neg hb, List.map_cons, List.nodup_cons]
      refine ⟨?_, ih (b.resid :: seen)⟩
      intro hmem
      rcases List.mem_map.mp hmem with ⟨a, ha, hres⟩
      exact firstByResid_not_seen rest (b.resid :: seen) a ha
        (hres ▸ List.mem_cons_self b.resid seen)

/-- `firstByResid` keeps exactly one atom per resid not in `seen`: its
length is the number of distinct resids outside `seen`. -/
theorem firstByResid_length :
    ∀ (l : List Atom) (seen : List Nat),
      (firstByResid l seen).length =
        ((l.map (fun a => a.resid)).toFinset \ seen.toFinset).card := by
  intro l
  induction l with
  | nil => intro seen; simp [firstByResid]
  | cons b rest ih =>
    intro seen
    by_cases hb : b.resid ∈ seen
    · rw [firstByResid, if_pos hb, List.map_cons, List.toFinset_cons,
        Finset.insert_sdiff_of_mem _ (List.mem_toFinset.mpr hb)]
      exact ih seen
    · rw [firstByResid, if_neg hb, List.length_cons, List.map_cons,
        List.toFinset_cons]
      have hset : insert b.resid (rest.map (fun a => a.resid)).toFinset \ seen.toFinset =
          insert b.resid ((rest.map (fun a => a.resid)).toFinset \
            (b.resid :: seen).toFinset) := by
        ext y
        by_cases hy : y = b.resid
        · subst hy
          simp [List.mem_toFinset, hb]
        · simp [List.mem_toFinset, hy]
      rw [hset, Finset.card_insert_of_not_mem (by simp), ih (b.resid :: seen)]

/-- In a distance-sorted list, the atom `firstByResid` keeps for a resid
realises the minimum distance among all listed atoms of that resid. -/
theorem firstByResid_min (box c : ℚ × ℚ × ℚ) :
    ∀ (l : List Atom) (seen : List Nat), List.Sorted (distLE box c) l →
      ∀ a ∈ firstByResid l seen, ∀ b ∈ l, b.resid = a.resid → distLE box c a b := by
  intro l
  induction l with
  | nil => intro seen _ a ha; cases ha
  | cons hd rest ih =>
    intro seen hsort a ha b hb hres
    have hhd : ∀ x ∈ rest, distLE box c hd x := List.rel_of_sorted_cons hsort
    have htail : List.Sorted (distLE box c) rest := hsort.of_cons
    by_cases hmem : hd.resid ∈ seen
    · rw [firstByResid, if_pos hmem] at ha
      rcases List.mem_cons.mp hb with hbhd | hbrest
      · exfalso
        apply firstByResid_not_seen rest seen a ha
        rw [← hres, hbhd]
        exact hmem
      · exact ih seen htail a ha b hbrest hres
    · rw [firstByResid, if_neg hmem] at ha
      rcases List.mem_cons.mp ha with hahd | hatail
      · subst hahd
        rcases List.mem_cons.mp hb with hbhd | hbrest
        · rw [hbhd]
          exact le_refl _
        · exact hhd b hbrest
      · have hanot : a.resid ∉ hd.resid :: seen :=
          firstByResid_not_seen rest (hd.resid :: seen) a hatail
        rcases List.mem_cons.mp hb with hbhd | hbrest
        · exfalso
          apply hanot
          rw [← hres, hbhd]
          exact List.mem_cons_self hd.resid seen
        · exact ih (hd.resid :: seen) htail a hatail b hbrest hres

/-! ## Lemmas about `rankedFirsts` and `buildClosest` -/

/-- The ordered array is a permutation of the range query result. -/
theorem sortedShell_perm (u : Universe) (gp : List Atom) (r : ℚ) :
    List.Perm (sortedShell u gp r) (shellQuery u gp r) :=
  List.perm_insertionSort _ _

/-- The ordered array is sorted by distance to the central center. -/
theorem sortedShell_sorted (u : Universe) (gp : List Atom) (r : ℚ) :
    List.Sorted (distLE u.box (centerOfMass gp)) (sortedShell u gp r) :=
  List.sorted_insertionSort _ _

/-- When the guard has seen at least `n + 1` distinct resids, the sliced
first-occurrence list has exactly `n + 1` atoms. -/
theorem rankedFirsts_length (u : Universe) (gp : List Atom) (n : Nat) (r : ℚ)
    (hg : n + 1 ≤ ((shellQuery u gp r).map (fun a => a.resid)).dedup.length) :
    (rankedFirsts u gp n r).length = n + 1 := by
  have hfin : ((sortedShell u gp r).map (fun a => a.resid)).toFinset =
      ((shellQuery u gp r).map (fun a => a.resid)).toFinset :=
    List.toFinset_eq_of_perm _ _ ((sortedShell_perm u gp r).map _)
  have hlen : (firstByResid (sortedShell u gp r) []).length =
      ((shellQuery u gp r).map (fun a => a.resid)).dedup.length := by
    rw [firstByResid_length, List.toFinset_nil, Finset.sdiff_empty, hfin,
      List.card_toFinset]
  rw [rankedFirsts, List.length_take, hlen]
  exact min_eq_left hg

/-- The returned resids are pairwise distinct. -/
theorem rankedFirsts_nodup (u : Universe) (gp : List Atom) (n : Nat) (r : ℚ) :
    ((rankedFirsts u gp n r).map (fun a => a.resid)).Nodup := by
  rw [rankedFirsts, List.map_take]
  exact List.Nodup.sublist (List.take_sublist _ _)
    (firstByResid_nodup (sortedShell u gp r) [])

/-- Every ranked atom comes from the range query (hence from the frame). -/
theorem rankedFirsts_mem (u : Universe) (gp : List Atom) (n : Nat) (r : ℚ)
    (a : Atom) (ha : a ∈ rankedFirsts u gp n r) : a ∈ shellQuery u gp r := by
  have h1 : a ∈ firstByResid (sortedShell u gp r) [] :=
    List.take_subset _ _ ha
  have h2 : a ∈ sortedShell u gp r :=
    (firstByResid_sublist (sortedShell u gp r) []).subset h1
  exact (sortedShell_perm u gp r).subset h2

/-- The ranked atoms are ordered by distance. -/
theorem rankedFirsts_sorted (u : Universe) (gp : List Atom) (n : Nat) (r : ℚ) :
    List.Pairwise (distLE u.box (centerOfMass gp)) (rankedFirsts u gp n r) :=
  List.Pairwise.sublist
    ((List.take_sublist _ _).trans (firstByResid_sublist (sortedShell u gp r) []))
    (sortedShell_sorted u gp r)

/-- Each ranked atom realises the minimum distance-to-center among ALL atoms
of the frame sharing its resid: atoms inside the range query are beaten by
sortedness and first-occurrence, atoms outside it are strictly beyond the
query radius. -/
theorem rankedFirsts_min (u : Universe) (gp : List Atom) (n : Nat) (r : ℚ)
    (a : Atom) (ha : a ∈ rankedFirsts u gp n r)
    (b : Atom) (hb : b ∈ u.atoms) (hres : b.resid = a.resid) :
    distSq3 u.box (centerOfMass gp) a.pos ≤ distSq3 u.box (centerOfMass gp) b.pos := by
  have hafb : a ∈ firstByResid (sortedShell u gp r) [] :=
    List.take_subset _ _ ha
  have haps : a ∈ shellQuery u gp r := rankedFirsts_mem u gp n r a ha
  by_cases hbps : b ∈ shellQuery u gp r
  · have hbsa : b ∈ sortedShell u gp r :=
      ((sortedShell_perm u gp r).mem_iff).mpr hbps
    exact firstByResid_min u.box (centerOfMass gp) (sortedShell u gp r) []
      (sortedShell_sorted u gp r) a hafb b hbsa hres
  · have hain : withinPoint r (distSq3 u.box (centerOfMass gp) a.pos) = true :=
      (List.mem_filter.mp haps).2
    have hbout : ¬ (withinPoint r (distSq3 u.box (centerOfMass gp) b.pos) = true) := by
      intro hw
      exact hbps (List.mem_filter.mpr ⟨hb, hw⟩)
    rw [withinPoint, Bool.and_eq_true, decide_eq_true_eq, decide_eq_true_eq] at hain
    rw [withinPoint, Bool.and_eq_true, decide_eq_true_eq, decide_eq_true_eq] at hbout
    push_neg at hbout
    exact le_of_lt (lt_of_le_of_lt hain.2 (hbout hain.1))

/-- Unpacking a successful `get_closest_n_mol` call: the result is
`buildClosest` at the radius the expansion stopped at, whose range query
saw at least `n + 1` distinct resids. -/
theorem get_closest_extract (u : Universe) (c : Selection) (gp : List Atom)
    (n fuel : Nat) (r : ℚ) (res : List Atom × List Nat × List ℚ)
    (h : get_atom_group u c = Except.ok gp)
    (hs : get_closest_n_mol fuel u c n r = Except.ok (some res)) :
    ∃ r2, n + 1 ≤ ((shellQuery u gp r2).map (fun a => a.resid)).dedup.length ∧
      res = buildClosest u gp n r2 := by
  unfold get_closest_n_mol at hs
  rw [h] at hs
  exact closestLoop_eq_some u gp n fuel r res (Except.ok.inj hs)

/-! ## Claims about the result of `get_closest_n_mol` -/

/-- Claim C1, counterexample: with `n_mol = 1` in a frame with two other
molecules, `get_closest_n_mol` returns TWO molecules — not
`min(1, 2) = 1` — and the central species' own molecule (resid 1) is the
first of them. -/
theorem claim_c1_counterexample :
    get_closest_n_mol 1 uA (Selection.atom aA0) 1 3 =
      Except.ok (some ([aA0, aA1], [1, 2], [0, 1])) ∧
    aA0.resid ∈ [1, 2] ∧ ([1, 2] : List Nat).length ≠ min 1 2 :=
  ⟨rfl, by decide, by decide⟩

/-- Claim C1, amended: whenever `get_closest_n_mol` returns, it returns
exactly `n_mol + 1` pairwise-distinct molecules (the `[0:n_mol + 1]` slice
keeps the central species' own molecule rather than excluding it). -/
theorem claim_c1_amended (u : Universe) (c : Selection) (gp : List Atom)
    (n fuel : Nat) (r : ℚ) (full : List Atom) (resids : List Nat) (dists : List ℚ)
    (h : get_atom_group u c = Except.ok gp)
    (hs : get_closest_n_mol fuel u c n r = Except.ok (some (full, resids, dists))) :
    resids.length = n + 1 ∧ resids.Nodup := by
  obtain ⟨r2, hg, heq⟩ := get_closest_extract u c gp n fuel r (full, resids, dists) h hs
  have hres : resids = (rankedFirsts u gp n r2).map (fun a => a.resid) :=
    congrArg (fun t => t.2.1) heq
  constructor
  · rw [hres, List.length_map]
    exact rankedFirsts_length u gp n r2 hg
  · rw [hres]
    exact rankedFirsts_nodup u gp n r2

/-- Claim C1, witness for the amended claim: the concrete closest-1 query
in `uA` returns the 2 = 1 + 1 distinct molecules 1 and 2. -/
theorem claim_c1_amended_witness :
    get_closest_n_mol 1 uA (Selection.atom aA0) 1 3 =
      Except.ok (some ([aA0, aA1], [1, 2], [0, 1])) ∧
    ([1, 2] : List Nat).length = 1 + 1 ∧ ([1, 2] : List Nat).Nodup :=
  ⟨rfl,
   (claim_c1_amended uA (Selection.atom aA0) [aA0] 1 1 3
      [aA0, aA1] [1, 2] [0, 1] rfl rfl).1,
   (claim_c1_amended uA (Selection.atom aA0) [aA0] 1 1 3
      [aA0, aA1] [1, 2] [0, 1] rfl rfl).2⟩

/-- Claim C6, counterexample: molecules 3 and 2 of `uB` are tied at
(squared) distance 1, yet the returned order is `[1, 3, 2]` — the stable
argsort order of the atom array — not ascending molecule id. -/
theorem claim_c6_counterexample :
    get_closest_n_mol 1 uB (Selection.atom aB0) 2 3 =
      Except.ok (some ([aB0, aB1, aB2], [1, 3, 2], [0, 1, 1])) ∧
    ¬ tiesAscend [1, 3, 2] [0, 1, 1] := by
  refine ⟨rfl, ?_⟩
  intro hasc
  rw [tiesAscend] at hasc
  have h12 := List.rel_of_pairwise_cons (List.pairwise_cons.mp hasc).2
    (List.mem_cons_self _ _)
  exact absurd (h12 rfl) (by decide)

/-- Claim C6, amended: on every successful call the returned distance
sequence is non-decreasing and each returned distance is the minimum
(squared periodic) particle-to-center distance among all atoms of the frame
in that molecule, realised by an atom of the frame; ties at equal minimum
distance follow the order of first occurrence in the distance-sorted atom
array, not necessarily ascending molecule id. -/
theorem claim_c6_amended (u : Universe) (c : Selection) (gp : List Atom)
    (n fuel : Nat) (r : ℚ) (full : List Atom) (resids : List Nat) (dists : List ℚ)
    (h : get_atom_group u c = Except.ok gp)
    (hs : get_closest_n_mol fuel u c n r = Except.ok (some (full, resids, dists))) :
    List.Chain' (· ≤ ·) dists ∧ dists.length = resids.length ∧
    ∀ p ∈ resids.zip dists,
      ∃ a, a ∈ u.atoms ∧ a.resid = p.1 ∧
        p.2 = distSq3 u.box (centerOfMass gp) a.pos ∧
        ∀ b ∈ u.atoms, b.resid = a.resid →
          distSq3 u.box (centerOfMass gp) a.pos ≤
            distSq3 u.box (centerOfMass gp) b.pos := by
  obtain ⟨r2, hg, heq⟩ := get_closest_extract u c gp n fuel r (full, resids, dists) h hs
  have hres : resids = (rankedFirsts u gp n r2).map (fun a => a.resid) :=
    congrArg (fun t => t.2.1) heq
  have hdis : dists = (rankedFirsts u gp n r2).map
      (fun a => distSq3 u.box (centerOfMass gp) a.pos) :=
    congrArg (fun t => t.2.2) heq
  refine ⟨?_, ?_, ?_⟩
  · apply List.Pairwise.chain'
    rw [hdis, List.pairwise_map]
    exact rankedFirsts_sorted u gp n r2
  · rw [hres, hdis, List.length_map, List.length_map]
  · intro p hp
    rw [hres, hdis, List.zip_map'] at hp
    obtain ⟨a, ha, hpa⟩ := List.mem_map.mp hp
    refine ⟨a, ?_, ?_, ?_, ?_⟩
    · exact (List.filter_sublist u.atoms).subset (rankedFirsts_mem u gp n r2 a ha)
    · rw [← hpa]
    · rw [← hpa]
    · intro b hb hbres
      exact rankedFirsts_min u gp n r2 a ha b hb hbres

/-- Claim C6, witness for the amended claim: the concrete closest-2 query
in `uB` has non-decreasing distances `[0, 1, 1]` matching its three
returned molecules. -/
theorem claim_c6_amended_witness :
    get_closest_n_mol 1 uB (Selection.atom aB0) 2 3 =
      Except.ok (some ([aB0, aB1, aB2], [1, 3, 2], [0, 1, 1])) ∧
    List.Chain' (· ≤ ·) [(0 : ℚ), 1, 1] ∧
    ([(0 : ℚ), 1, 1]).length = ([1, 3, 2] : List Nat).length :=
  ⟨rfl,
   (claim_c6_amended uB (Selection.atom aB0) [aB0] 2 1 3
      [aB0, aB1, aB2] [1, 3, 2] [0, 1, 1] rfl rfl).1,
   (claim_c6_amended uB (Selection.atom aB0) [aB0] 2 1 3
      [aB0, aB1, aB2] [1, 3, 2] [0, 1, 1] rfl rfl).2.1⟩

end Solvation
